import Mathlib

/-!
Verification of the pixel-buffer analysis module (`analysisUtils`) of the
undacted repository: `analyzeLazyRedaction`, `detectRedactionAtPoint`,
`estimateHiddenCharacters` and `generateEvidenceImage`.

Modelling notes.
* An `HTMLCanvasElement` together with its 2D context is modelled as a
  `Canvas`: a width, a height and the flat RGBA byte array that
  `getImageData(0, 0, width, height)` exposes (`data i` is the i-th byte,
  pixel (x, y) occupying bytes `(y*width + x)*4 .. +3`).  `getContext`
  never fails in the model (the source returns a neutral value when it
  does).
* `getImageData` on a sub-rectangle with positive width and height is
  modelled as a pure read of the requested region; pixels outside the
  canvas read as transparent black (0, 0, 0, 0).  A request with zero
  width or zero height throws an IndexSizeError DOMException (canvas
  semantics), modelled as `Except.error`; `analyzeLazyRedaction`, whose
  region read is unguarded, therefore returns `Except String Bool`.
* JavaScript numbers are modelled as exact rationals.  The luminance
  0.299*R + 0.587*G + 0.114*B of byte triples is also kept in an
  integer-scaled form (multiplied by 1000) so that every comparison in
  the code is decidable over ℕ.
* `Math.round x` is `⌊x + 1/2⌋` (halves toward +∞).  A division that
  JavaScript would turn into Infinity or NaN (division by zero reaching
  `Math.round`) is modelled by `none` in an `Option` result.
* `Math.floor` applied to already-integral coordinates is the identity
  and is dropped.  Rect fields are natural numbers, following the data
  model (w, h ≥ 0, pixel coordinates).
* Glyph rasterization performed by `fillText` is delegated to the host
  platform and is outside the algorithmic contract (spec section 4.4);
  the model keeps the layout-level drawing (allocation, copy, footer
  fill, divider stroke) and leaves glyph pixels unmodelled, i.e. text
  calls do not change the modelled buffer.
-/

/-- A rectangle `{x, y, w, h}` in buffer pixel coordinates (`types.ts`).
The data model fixes `w, h ≥ 0`, so all four fields are naturals here. -/
structure Rect where
  x : ℕ
  y : ℕ
  w : ℕ
  h : ℕ
deriving DecidableEq

/-- A matched profile record (`types.ts`); opaque data rendered into the
report, never validated. -/
structure Profile where
  id : String
  name : String
  email : String
  role : String
  clearance : String

/-- A canvas: dimensions plus the flat RGBA byte array of its 2D context.
`data i` is byte `i`; bytes beyond `4*width*height` are never read by the
functions under verification. -/
structure Canvas where
  width : ℕ
  height : ℕ
  data : ℕ → ℕ

/-- Builds a canvas from a per-pixel RGB function (alpha is 255);
test-fixture helper for the synthetic buffers of the spec. -/
def mkCanvas (w h : ℕ) (pix : ℕ → ℕ → ℕ × ℕ × ℕ) : Canvas where
  width := w
  height := h
  data := fun i =>
    let p := i / 4
    let ch := i % 4
    if ch = 0 then (pix (p % w) (p / w)).1
    else if ch = 1 then (pix (p % w) (p / w)).2.1
    else if ch = 2 then (pix (p % w) (p / w)).2.2
    else 255

/-- The RGB bytes of pixel (x, y): `data[(y*w+x)*4 .. +2]`.  The caller
is responsible for bounds, as with a raw `ImageData` access. -/
def pixelBytes (c : Canvas) (x y : ℕ) : ℕ × ℕ × ℕ :=
  (c.data ((y * c.width + x) * 4),
   c.data ((y * c.width + x) * 4 + 1),
   c.data ((y * c.width + x) * 4 + 2))

/-- Region read with `getImageData` semantics: pixels outside the canvas
are transparent black (0, 0, 0). -/
def getPixel (c : Canvas) (x y : ℕ) : ℕ × ℕ × ℕ :=
  if x < c.width ∧ y < c.height then pixelBytes c x y else (0, 0, 0)

/-- Luminance of an RGB byte triple scaled by 1000:
`1000 * (0.299*r + 0.587*g + 0.114*b)`, kept in ℕ to make the
comparisons of the code decidable. -/
def lumScaled (p : ℕ × ℕ × ℕ) : ℕ :=
  299 * p.1 + 587 * p.2.1 + 114 * p.2.2

/-- Luminance of an RGB byte triple as the code and spec write it:
`0.299 * r + 0.587 * g + 0.114 * b`. -/
def lumOf (p : ℕ × ℕ × ℕ) : ℚ :=
  0.299 * (p.1 : ℚ) + 0.587 * (p.2.1 : ℚ) + 0.114 * (p.2.2 : ℚ)

/-- Luminance of canvas pixel (x, y) (raw read, as
`detectRedactionAtPoint` performs it on the full-canvas image data). -/
def luminance (c : Canvas) (x y : ℕ) : ℚ :=
  lumOf (pixelBytes c x y)

/-- The `isDark` helper of `detectRedactionAtPoint`: false outside the
canvas, otherwise luminance < 60 (dark threshold). -/
def isDark (c : Canvas) (x y : ℕ) : Bool :=
  if x < c.width ∧ y < c.height then
    decide (lumScaled (pixelBytes c x y) < 60000)
  else false

/-- `while (minX > 0 && isDark(minX - 1, y)) minX--` : walk left from `x`
while the left neighbour satisfies `dark`, stopping at 0. -/
def scanLeft (dark : ℕ → Bool) : ℕ → ℕ
  | 0 => 0
  | n + 1 => if dark n then scanLeft dark n else n + 1

/-- Fuel-indexed right walk; the fuel is the remaining distance to the
last admissible coordinate `bound - 1`. -/
def scanRightAux (dark : ℕ → Bool) : ℕ → ℕ → ℕ
  | 0, x => x
  | fuel + 1, x => if dark (x + 1) then scanRightAux dark fuel (x + 1) else x

/-- `while (maxX < bound - 1 && isDark(maxX + 1, y)) maxX++` : walk right
from `x` while the right neighbour satisfies `dark`, never passing
`bound - 1`. -/
def scanRight (dark : ℕ → Bool) (bound x : ℕ) : ℕ :=
  scanRightAux dark (bound - 1 - x) x

/-- The scanline cross-expansion of `detectRedactionAtPoint` (steps 2-4):
horizontal scan from the probe, vertical scan at the horizontal midpoint,
refined horizontal scan at the vertical midpoint; `padding = 0`. -/
def detectScan (c : Canvas) (sx sy : ℕ) : Rect :=
  let minX := scanLeft (fun x => isDark c x sy) sx
  let maxX := scanRight (fun x => isDark c x sy) c.width sx
  let centerX := (minX + maxX) / 2
  let minY := scanLeft (fun y => isDark c centerX y) sy
  let maxY := scanRight (fun y => isDark c centerX y) c.height sy
  let centerY := (minY + maxY) / 2
  let refinedMinX := scanLeft (fun x => isDark c x centerY) centerX
  let refinedMaxX := scanRight (fun x => isDark c x centerY) c.width centerX
  ⟨refinedMinX, minY, refinedMaxX - refinedMinX, maxY - minY⟩

/-- `detectRedactionAtPoint` (analysisUtils): bounds check, probe
darkness check, scanline expansion, then the minimum-size sanity check
(`w < 5 || h < 5` yields null). -/
def detectRedactionAtPoint (c : Canvas) (startX startY : ℤ) : Option Rect :=
  if startX < 0 ∨ (c.width : ℤ) ≤ startX ∨ startY < 0 ∨ (c.height : ℤ) ≤ startY then
    none
  else if isDark c startX.toNat startY.toNat then
    let rect := detectScan c startX.toNat startY.toNat
    if rect.w < 5 ∨ rect.h < 5 then none else some rect
  else none

/-- The per-pixel test of `analyzeLazyRedaction`:
`luminance > 30 && luminance < 250` (thresholds scaled by 1000). -/
def suspicious (c : Canvas) (x y : ℕ) : Bool :=
  decide (30000 < lumScaled (getPixel c x y) ∧ lumScaled (getPixel c x y) < 250000)

/-- The `nonBlackPixels` counter of `analyzeLazyRedaction`: the loop over
the region data of `getImageData(rect.x, rect.y, rect.w, rect.h)` in
row-major order (region pixel `p` sits at `(p % w, p / w)`). -/
def nonBlackPixels (c : Canvas) (rect : Rect) : ℕ :=
  (List.range (rect.w * rect.h)).countP
    (fun p => suspicious c (rect.x + p % rect.w) (rect.y + p / rect.w))

/-- `analyzeLazyRedaction` (analysisUtils).  The unguarded call
`ctx.getImageData(rect.x, rect.y, rect.w, rect.h)` throws an
IndexSizeError DOMException whenever `rect.w` or `rect.h` is 0 (canvas
semantics), modelled as `Except.error`.  On a successful read the loop
counts the suspicious pixels and the rect is flagged iff more than
5 percent of its pixels are suspicious. -/
def analyzeLazyRedaction (c : Canvas) (rect : Rect) : Except String Bool :=
  if rect.w = 0 ∨ rect.h = 0 then Except.error "IndexSizeError"
  else Except.ok
    (decide ((nonBlackPixels c rect : ℚ) / ((rect.w * rect.h : ℕ) : ℚ) > 0.05))

/-- Claim-side count for the artifact classifier: the number of pixels
inside the rect whose luminance `0.299*R + 0.587*G + 0.114*B` is strictly
between 30 and 250 (written from the spec wording, to be proved equal to
the count of the code). -/
def countInterior (c : Canvas) (rect : Rect) : ℕ :=
  ((Finset.range rect.w ×ˢ Finset.range rect.h).filter
    (fun q => 30 < lumOf (getPixel c (rect.x + q.1) (rect.y + q.2)) ∧
              lumOf (getPixel c (rect.x + q.1) (rect.y + q.2)) < 250)).card

/-- JavaScript `Math.round`: nearest integer, halves toward +∞. -/
def jsRound (q : ℚ) : ℤ := ⌊q + 1 / 2⌋

/-- Round-half-away-from-zero, the convention named by the spec (spec
side, for comparison with the rounding the code performs). -/
def roundHalfAwayFromZero (q : ℚ) : ℤ :=
  if 0 ≤ q then ⌊q + 1 / 2⌋ else -⌊-q + 1 / 2⌋

/-- `estimateHiddenCharacters` (analysisUtils).  `referenceTextLength = 0`
returns 0 (explicit guard).  Otherwise `avgCharWidth = referenceW /
referenceTextLength`; when that is 0 the JavaScript division produces
Infinity or NaN and `Math.round` keeps it non-finite, modelled as `none`;
otherwise the result is `Math.round (redactionW / avgCharWidth)`. -/
def estimateHiddenCharacters (redactionW referenceW referenceTextLength : ℚ) : Option ℤ :=
  if referenceTextLength = 0 then some 0
  else
    let avgCharWidth := referenceW / referenceTextLength
    if avgCharWidth = 0 then none
    else some (jsRound (redactionW / avgCharWidth))

/-- Byte `ch` (0..3) of the divider colour #00ff41, alpha 255. -/
def greenByte (ch : ℕ) : ℕ :=
  if ch = 0 then 0 else if ch = 1 then 255 else if ch = 2 then 65 else 255

/-- Byte `ch` (0..3) of opaque black #000000. -/
def blackByte (ch : ℕ) : ℕ :=
  if ch = 3 then 255 else 0

/-- `generateEvidenceImage` (analysisUtils), at the pixel-buffer level
(the final `toDataURL` encoding is an excluded collaborator, spec
section 6).  A fresh `width × (height + 150)` canvas receives, in order:
the source image at (0, 0); a black footer `fillRect(0, H, W, 150)`; the
divider `stroke` of `lineWidth` 4 along `y = H`, covering rows
`H-2 .. H+1`; then the footer text lines and the overlay of the profile
name at the centre of `redactionRect`, whose glyph pixels are
platform-rendered and left unmodelled. -/
def generateEvidenceImage (c : Canvas) (redactionRect : Rect) (m : Profile) : Canvas where
  width := c.width
  height := c.height + 150
  data := fun i =>
    if i < 4 * c.width * (c.height + 150) then
      let y := i / 4 / c.width
      if c.height ≤ y + 2 ∧ y < c.height + 2 then greenByte (i % 4)
      else if c.height ≤ y then blackByte (i % 4)
      else c.data i
    else 0

/-- Two canvases agree as buffers: same dimensions, same visible bytes. -/
def sameBuffer (a b : Canvas) : Prop :=
  a.width = b.width ∧ a.height = b.height ∧
    ∀ i, i < 4 * a.width * a.height → a.data i = b.data i

/-- The synthetic buffer of the spec example: 100×100, white, with a
solid black rectangle {x:10, y:10, w:40, h:20}. -/
def cBlackRect100 : Canvas :=
  mkCanvas 100 100 (fun x y =>
    if 10 ≤ x ∧ x < 50 ∧ 10 ≤ y ∧ y < 30 then (0, 0, 0) else (255, 255, 255))

/-- A 20×20 white buffer with a solid black rectangle {2, 2, 8, 8}. -/
def cBlackSmall : Canvas :=
  mkCanvas 20 20 (fun x y =>
    if 2 ≤ x ∧ x < 10 ∧ 2 ≤ y ∧ y < 10 then (0, 0, 0) else (255, 255, 255))

/-- A 4×4 all-white canvas. -/
def c4x4 : Canvas := ⟨4, 4, fun _ => 255⟩

/-- The same visible 4×4 buffer with different bytes past the end of the
visible array. -/
def c4x4junk : Canvas := ⟨4, 4, fun i => if i < 64 then 255 else 7⟩

/-- A degenerate zero-area rect. -/
def rect0 : Rect := ⟨0, 0, 0, 0⟩

/-- An arbitrary profile fixture. -/
def prof0 : Profile := ⟨"p-1", "Jane Roe", "jr@example.org", "analyst", "L2"⟩

/-! ### Bridging lemmas between the rational luminance and its scaled form -/

theorem lumOf_eq_scaled (p : ℕ × ℕ × ℕ) : lumOf p = (lumScaled p : ℚ) / 1000 := by
  unfold lumOf lumScaled
  push_cast
  ring_nf

theorem luminance_eq_scaled (c : Canvas) (x y : ℕ) :
    luminance c x y = (lumScaled (pixelBytes c x y) : ℚ) / 1000 :=
  lumOf_eq_scaled _

theorem lumScaled_lt_iff (p : ℕ × ℕ × ℕ) (a : ℕ) :
    lumOf p < (a : ℚ) / 1000 ↔ lumScaled p < a := by
  rw [lumOf_eq_scaled, div_lt_div_iff_of_pos_right (by norm_num)]
  exact_mod_cast Iff.rfl

theorem lt_lumScaled_iff (p : ℕ × ℕ × ℕ) (a : ℕ) :
    (a : ℚ) / 1000 < lumOf p ↔ a < lumScaled p := by
  rw [lumOf_eq_scaled, div_lt_div_iff_of_pos_right (by norm_num)]
  exact_mod_cast Iff.rfl

/-! ### The scanline loops on an interval of dark pixels -/

theorem scanLeft_eq (dark : ℕ → Bool) (a b : ℕ)
    (hd : ∀ t, dark t = true ↔ a ≤ t ∧ t < b) :
    ∀ x, a ≤ x → x < b → scanLeft dark x = a := by
  intro x
  induction x with
  | zero => intro h1 _; simp only [scanLeft]; omega
  | succ n ih =>
    intro h1 h2
    by_cases ha : a ≤ n
    · have hdn : dark n = true := (hd n).mpr ⟨ha, by omega⟩
      simp only [scanLeft, hdn, if_true]
      exact ih ha (by omega)
    · have hdn : ¬dark n = true := fun h => ha ((hd n).mp h).1
      simp only [scanLeft, hdn, if_false, Bool.false_eq_true, if_neg hdn]
      omega

theorem scanRightAux_eq (dark : ℕ → Bool) (a b w : ℕ)
    (hd : ∀ t, dark t = true ↔ a ≤ t ∧ t < b) (hbw : b ≤ w) :
    ∀ fuel x, fuel = w - 1 - x → a ≤ x → x < b →
      scanRightAux dark fuel x = b - 1 := by
  intro fuel
  induction fuel with
  | zero =>
    intro x hf h1 h2
    simp only [scanRightAux]
    omega
  | succ f ih =>
    intro x hf h1 h2
    by_cases hxb : x + 1 < b
    · have hdx : dark (x + 1) = true := (hd _).mpr ⟨by omega, hxb⟩
      simp only [scanRightAux, hdx, if_true]
      exact ih (x + 1) (by omega) (by omega) hxb
    · have hdx : ¬dark (x + 1) = true := fun h => by
        have := (hd _).mp h
        omega
      simp only [scanRightAux, if_neg hdx]
      omega

theorem scanRight_eq (dark : ℕ → Bool) (a b w x : ℕ)
    (hd : ∀ t, dark t = true ↔ a ≤ t ∧ t < b) (hbw : b ≤ w)
    (h1 : a ≤ x) (h2 : x < b) : scanRight dark w x = b - 1 :=
  scanRightAux_eq dark a b w hd hbw (w - 1 - x) x rfl h1 h2

/-- On a buffer whose dark pixels are exactly an axis-aligned rectangle,
the scanline cross-expansion started at any point of the rectangle
returns exactly the max-minus-min bounds of that rectangle. -/
theorem detectScan_solid (c : Canvas) (R : Rect)
    (hbw : R.x + R.w ≤ c.width) (hbh : R.y + R.h ≤ c.height)
    (hdark : ∀ x y, isDark c x y = true ↔
      (R.x ≤ x ∧ x < R.x + R.w ∧ R.y ≤ y ∧ y < R.y + R.h))
    (px py : ℕ) (hx1 : R.x ≤ px) (hx2 : px < R.x + R.w)
    (hy1 : R.y ≤ py) (hy2 : py < R.y + R.h) :
    detectScan c px py = ⟨R.x, R.y, R.w - 1, R.h - 1⟩ := by
  have hrow : ∀ y, R.y ≤ y → y < R.y + R.h →
      ∀ t, (fun x => isDark c x y) t = true ↔ R.x ≤ t ∧ t < R.x + R.w := by
    intro y hya hyb t
    simp only [hdark]
    exact ⟨fun h => ⟨h.1, h.2.1⟩, fun h => ⟨h.1, h.2, hya, hyb⟩⟩
  have hcol : ∀ x, R.x ≤ x → x < R.x + R.w →
      ∀ t, (fun y => isDark c x y) t = true ↔ R.y ≤ t ∧ t < R.y + R.h := by
    intro x hxa hxb t
    simp only [hdark]
    exact ⟨fun h => ⟨h.2.2.1, h.2.2.2⟩, fun h => ⟨hxa, hxb, h.1, h.2⟩⟩
  have eminX : scanLeft (fun x => isDark c x py) px = R.x :=
    scanLeft_eq _ R.x (R.x + R.w) (hrow py hy1 hy2) px hx1 hx2
  have emaxX : scanRight (fun x => isDark c x py) c.width px = R.x + R.w - 1 :=
    scanRight_eq _ R.x (R.x + R.w) c.width px (hrow py hy1 hy2) hbw hx1 hx2
  have hcx1 : R.x ≤ (R.x + (R.x + R.w - 1)) / 2 := by omega
  have hcx2 : (R.x + (R.x + R.w - 1)) / 2 < R.x + R.w := by omega
  have eminY : scanLeft (fun y => isDark c ((R.x + (R.x + R.w - 1)) / 2) y) py = R.y :=
    scanLeft_eq _ R.y (R.y + R.h) (hcol _ hcx1 hcx2) py hy1 hy2
  have emaxY : scanRight (fun y => isDark c ((R.x + (R.x + R.w - 1)) / 2) y) c.height py
      = R.y + R.h - 1 :=
    scanRight_eq _ R.y (R.y + R.h) c.height py (hcol _ hcx1 hcx2) hbh hy1 hy2
  have hcy1 : R.y ≤ (R.y + (R.y + R.h - 1)) / 2 := by omega
  have hcy2 : (R.y + (R.y + R.h - 1)) / 2 < R.y + R.h := by omega
  have erminX : scanLeft (fun x => isDark c x ((R.y + (R.y + R.h - 1)) / 2))
      ((R.x + (R.x + R.w - 1)) / 2) = R.x :=
    scanLeft_eq _ R.x (R.x + R.w) (hrow _ hcy1 hcy2) _ hcx1 hcx2
  have ermaxX : scanRight (fun x => isDark c x ((R.y + (R.y + R.h - 1)) / 2)) c.width
      ((R.x + (R.x + R.w - 1)) / 2) = R.x + R.w - 1 :=
    scanRight_eq _ R.x (R.x + R.w) c.width _ (hrow _ hcy1 hcy2) hbw hcx1 hcx2
  simp only [detectScan, eminX, emaxX, eminY, emaxY, erminX, ermaxX, Rect.mk.injEq]
  exact ⟨trivial, trivial, by omega, by omega⟩

/-! ### Reading pixels back out of a canvas built from a pixel function -/

theorem mkCanvas_r (w h : ℕ) (pix : ℕ → ℕ → ℕ × ℕ × ℕ) (x y : ℕ) (hx : x < w) :
    (mkCanvas w h pix).data ((y * w + x) * 4) = (pix x y).1 := by
  have h1 : (y * w + x) * 4 % 4 = 0 := by omega
  have h2 : (y * w + x) * 4 / 4 = y * w + x := by omega
  have h3 : (y * w + x) % w = x := by
    have : y * w + x = x + w * y := by ring
    rw [this, Nat.add_mul_mod_self_left, Nat.mod_eq_of_lt hx]
  have h4 : (y * w + x) / w = y := by
    have : y * w + x = x + y * w := by ring
    rw [this, Nat.add_mul_div_right _ _ (by omega : 0 < w), Nat.div_eq_of_lt hx,
      Nat.zero_add]
  simp only [mkCanvas, h1, h2, h3, h4]
  norm_num

theorem mkCanvas_g (w h : ℕ) (pix : ℕ → ℕ → ℕ × ℕ × ℕ) (x y : ℕ) (hx : x < w) :
    (mkCanvas w h pix).data ((y * w + x) * 4 + 1) = (pix x y).2.1 := by
  have h1 : ((y * w + x) * 4 + 1) % 4 = 1 := by omega
  have h2 : ((y * w + x) * 4 + 1) / 4 = y * w + x := by omega
  have h3 : (y * w + x) % w = x := by
    have : y * w + x = x + w * y := by ring
    rw [this, Nat.add_mul_mod_self_left, Nat.mod_eq_of_lt hx]
  have h4 : (y * w + x) / w = y := by
    have : y * w + x = x + y * w := by ring
    rw [this, Nat.add_mul_div_right _ _ (by omega : 0 < w), Nat.div_eq_of_lt hx,
      Nat.zero_add]
  simp only [mkCanvas, h1, h2, h3, h4]
  norm_num

theorem mkCanvas_b (w h : ℕ) (pix : ℕ → ℕ → ℕ × ℕ × ℕ) (x y : ℕ) (hx : x < w) :
    (mkCanvas w h pix).data ((y * w + x) * 4 + 2) = (pix x y).2.2 := by
  have h1 : ((y * w + x) * 4 + 2) % 4 = 2 := by omega
  have h2 : ((y * w + x) * 4 + 2) / 4 = y * w + x := by omega
  have h3 : (y * w + x) % w = x := by
    have : y * w + x = x + w * y := by ring
    rw [this, Nat.add_mul_mod_self_left, Nat.mod_eq_of_lt hx]
  have h4 : (y * w + x) / w = y := by
    have : y * w + x = x + y * w := by ring
    rw [this, Nat.add_mul_div_right _ _ (by omega : 0 < w), Nat.div_eq_of_lt hx,
      Nat.zero_add]
  simp only [mkCanvas, h1, h2, h3, h4]
  norm_num

theorem pixelBytes_mkCanvas (w h : ℕ) (pix : ℕ → ℕ → ℕ × ℕ × ℕ) (x y : ℕ)
    (hx : x < w) :
    pixelBytes (mkCanvas w h pix) x y = pix x y := by
  unfold pixelBytes
  rw [show (mkCanvas w h pix).width = w from rfl, mkCanvas_r w h pix x y hx,
    mkCanvas_g w h pix x y hx, mkCanvas_b w h pix x y hx]

theorem luminance_mkCanvas (w h : ℕ) (pix : ℕ → ℕ → ℕ × ℕ × ℕ) (x y : ℕ)
    (hx : x < w) :
    luminance (mkCanvas w h pix) x y = lumOf (pix x y) := by
  unfold luminance
  rw [pixelBytes_mkCanvas w h pix x y hx]

theorem lumOf_black : lumOf (0, 0, 0) = 0 := by norm_num [lumOf]

theorem lumOf_white : lumOf (255, 255, 255) = 255 := by norm_num [lumOf]

/-- The 20×20 fixture is luminance 0 on {2,2,8,8} and 255 elsewhere. -/
theorem lumBlackSmall : ∀ x, x < 20 → ∀ y, y < 20 →
    luminance cBlackSmall x y =
      if 2 ≤ x ∧ x < 2 + 8 ∧ 2 ≤ y ∧ y < 2 + 8 then 0 else 255 := by
  intro x hx y _
  unfold cBlackSmall
  rw [luminance_mkCanvas _ _ _ x y hx]
  by_cases hR : 2 ≤ x ∧ x < 2 + 8 ∧ 2 ≤ y ∧ y < 2 + 8
  · rw [if_pos hR, if_pos (by omega : 2 ≤ x ∧ x < 10 ∧ 2 ≤ y ∧ y < 10), lumOf_black]
  · rw [if_neg hR, if_neg (by omega : ¬(2 ≤ x ∧ x < 10 ∧ 2 ≤ y ∧ y < 10)), lumOf_white]

/-- On a buffer that is luminance 0 exactly on rectangle R and luminance
255 elsewhere, with R inside the canvas, `isDark` recognises exactly the
pixels of R. -/
theorem isDark_solid (c : Canvas) (R : Rect)
    (hbw : R.x + R.w ≤ c.width) (hbh : R.y + R.h ≤ c.height)
    (hpix : ∀ x, x < c.width → ∀ y, y < c.height →
      luminance c x y =
        if R.x ≤ x ∧ x < R.x + R.w ∧ R.y ≤ y ∧ y < R.y + R.h then 0 else 255) :
    ∀ x y, isDark c x y = true ↔
      (R.x ≤ x ∧ x < R.x + R.w ∧ R.y ≤ y ∧ y < R.y + R.h) := by
  intro x y
  unfold isDark
  by_cases hin : x < c.width ∧ y < c.height
  · rw [if_pos hin]
    have hl := hpix x hin.1 y hin.2
    rw [luminance_eq_scaled] at hl
    by_cases hR : R.x ≤ x ∧ x < R.x + R.w ∧ R.y ≤ y ∧ y < R.y + R.h
    · rw [if_pos hR] at hl
      have h0 : lumScaled (pixelBytes c x y) = 0 := by
        field_simp at hl
        exact_mod_cast hl
      simp [h0, hR]
    · rw [if_neg hR] at hl
      have h255 : lumScaled (pixelBytes c x y) = 255000 := by
        field_simp at hl
        exact_mod_cast hl
      simp [h255, hR]
  · rw [if_neg hin]
    simp only [Bool.false_eq_true, false_iff]
    intro hR
    exact hin ⟨by omega, by omega⟩

/-- Claim C1 (amended): for every buffer containing a single solid black
axis-aligned rectangle R (luminance 0) on an otherwise white background
(luminance 255), with R.w ≥ 6 and R.h ≥ 6, probing any point inside R
returns the rect ⟨R.x, R.y, R.w - 1, R.h - 1⟩ — the max-minus-min scan
bounds, one less than the true width and height — independent of which
interior point is probed.  (Blocks with R.w ≤ 5 or R.h ≤ 5 would instead
fall to the minimum-size check.) -/
theorem detect_solid_black_rect (c : Canvas) (R : Rect)
    (hbw : R.x + R.w ≤ c.width) (hbh : R.y + R.h ≤ c.height)
    (hw : 6 ≤ R.w) (hh : 6 ≤ R.h)
    (hpix : ∀ x, x < c.width → ∀ y, y < c.height →
      luminance c x y =
        if R.x ≤ x ∧ x < R.x + R.w ∧ R.y ≤ y ∧ y < R.y + R.h then 0 else 255)
    (px py : ℕ) (hx1 : R.x ≤ px) (hx2 : px < R.x + R.w)
    (hy1 : R.y ≤ py) (hy2 : py < R.y + R.h) :
    detectRedactionAtPoint c px py = some ⟨R.x, R.y, R.w - 1, R.h - 1⟩ := by
  have hdark := isDark_solid c R hbw hbh hpix
  have hb : ¬((px : ℤ) < 0 ∨ (c.width : ℤ) ≤ (px : ℤ) ∨
      (py : ℤ) < 0 ∨ (c.height : ℤ) ≤ (py : ℤ)) := by omega
  unfold detectRedactionAtPoint
  rw [if_neg hb]
  simp only [Int.toNat_natCast]
  have hds : isDark c px py = true := (hdark px py).mpr ⟨hx1, hx2, hy1, hy2⟩
  rw [if_pos hds]
  simp only [detectScan_solid c R hbw hbh hdark px py hx1 hx2 hy1 hy2]
  rw [if_neg (by dsimp only; omega :
    ¬((⟨R.x, R.y, R.w - 1, R.h - 1⟩ : Rect).w < 5 ∨
      (⟨R.x, R.y, R.w - 1, R.h - 1⟩ : Rect).h < 5))]

/-- Claim C1 counterexample: on the spec example, a 100×100 white buffer
with the solid black rectangle R = {x:10, y:10, w:40, h:20}, probing the
interior point (15, 15) yields {10, 10, 39, 19} — the claimed result
{10, 10, 40, 20} is off by one in both w and h. -/
theorem detect_spec_example_off_by_one :
    detectRedactionAtPoint cBlackRect100 15 15 = some ⟨10, 10, 39, 19⟩ ∧
    detectRedactionAtPoint cBlackRect100 15 15 ≠ some ⟨10, 10, 40, 20⟩ := by
  constructor
  · decide
  · decide

/-- Witness for the amended claim C1: the 20×20 white fixture with the
solid black rectangle R = {2,2,8,8}, probed at the interior point (5,5),
yields {2, 2, 7, 7}. -/
theorem detect_solid_black_rect_witness :
    detectRedactionAtPoint cBlackSmall 5 5 = some ⟨2, 2, 7, 7⟩ :=
  detect_solid_black_rect cBlackSmall ⟨2, 2, 8, 8⟩ (by decide) (by decide)
    (by decide) (by decide) lumBlackSmall 5 5 (by decide) (by decide)
    (by decide) (by decide)

/-- Claim C3: the only negative outcome of detectRedactionAtPoint is
NotFound (none), never an exception (the model is a total function): a
probe outside [0,W)×[0,H) defensively returns none, and an in-range
probe whose pixel luminance is ≥ 60 returns none. -/
theorem detect_notfound_on_bright_or_oob (c : Canvas) (sx sy : ℤ)
    (h : (sx < 0 ∨ (c.width : ℤ) ≤ sx ∨ sy < 0 ∨ (c.height : ℤ) ≤ sy) ∨
         60 ≤ luminance c sx.toNat sy.toNat) :
    detectRedactionAtPoint c sx sy = none := by
  unfold detectRedactionAtPoint
  by_cases hb : sx < 0 ∨ (c.width : ℤ) ≤ sx ∨ sy < 0 ∨ (c.height : ℤ) ≤ sy
  · rw [if_pos hb]
  · rw [if_neg hb]
    have h60 : 60 ≤ luminance c sx.toNat sy.toNat := h.resolve_left hb
    rw [luminance_eq_scaled, le_div_iff₀ (by norm_num : (0 : ℚ) < 1000)] at h60
    have hsc : 60000 ≤ lumScaled (pixelBytes c sx.toNat sy.toNat) := by
      exact_mod_cast h60
    have hid : isDark c sx.toNat sy.toNat = false := by
      unfold isDark
      by_cases hin : sx.toNat < c.width ∧ sy.toNat < c.height
      · rw [if_pos hin]
        simp only [decide_eq_false_iff_not, not_lt]
        exact hsc
      · rw [if_neg hin]
    simp [hid]

/-- Witness for claim C3: probing the all-white 4×4 canvas at (0,0)
(luminance 255 ≥ 60) returns none. -/
theorem detect_notfound_witness : detectRedactionAtPoint c4x4 0 0 = none :=
  detect_notfound_on_bright_or_oob c4x4 0 0
    (Or.inr (by norm_num [luminance, pixelBytes, c4x4, lumOf, Int.toNat_zero]))

/-- Claim C4: whenever detectRedactionAtPoint returns a rect it satisfies
w ≥ 5 and h ≥ 5; a scan candidate with w < 5 or h < 5 yields none
instead. -/
theorem detect_min_size :
    (∀ (c : Canvas) (sx sy : ℤ) (r : Rect),
      detectRedactionAtPoint c sx sy = some r → 5 ≤ r.w ∧ 5 ≤ r.h) ∧
    (∀ (c : Canvas) (sx sy : ℤ),
      (detectScan c sx.toNat sy.toNat).w < 5 ∨ (detectScan c sx.toNat sy.toNat).h < 5 →
      detectRedactionAtPoint c sx sy = none) := by
  constructor
  · intro c sx sy r h
    unfold detectRedactionAtPoint at h
    dsimp only at h
    split_ifs at h with h1 h2 h3
    all_goals first
    | (injection h with h; subst h; omega)
    | exact Option.noConfusion h
  · intro c sx sy hlt
    unfold detectRedactionAtPoint
    dsimp only
    split_ifs with h1 h2 h3
    all_goals first
    | rfl
    | exact absurd hlt h3

/-- Witness for claim C4: the rect detected on the 20×20 fixture at
probe (5,5) has w ≥ 5 and h ≥ 5. -/
theorem detect_min_size_witness :
    5 ≤ (⟨2, 2, 7, 7⟩ : Rect).w ∧ 5 ≤ (⟨2, 2, 7, 7⟩ : Rect).h :=
  detect_min_size.1 cBlackSmall 5 5 ⟨2, 2, 7, 7⟩ (by decide)

/-- Claim C7: estimateHiddenCharacters(100, 50, 5) = 10 (average char
width 10px), estimateHiddenCharacters(0, 50, 5) = 0, and the zero-length
guard: for every redactionW and referenceW, a reference text length of 0
returns 0. -/
theorem estimateHiddenCharacters_examples :
    estimateHiddenCharacters 100 50 5 = some 10 ∧
    estimateHiddenCharacters 0 50 5 = some 0 ∧
    ∀ redactionW referenceW : ℚ,
      estimateHiddenCharacters redactionW referenceW 0 = some 0 := by
  refine ⟨?_, ?_, ?_⟩
  · norm_num [estimateHiddenCharacters, jsRound]
  · norm_num [estimateHiddenCharacters, jsRound]
  · intro redactionW referenceW
    simp [estimateHiddenCharacters]

/-- Claim C8 counterexample: at redactionWidth = -25, referenceWidth =
50, referenceTextLength = 5 the quotient is -2.5; the code (JS
Math.round, halves toward +∞) returns -2, while the claimed
round-half-away-from-zero convention mandates -3. -/
theorem estimate_round_half_cex :
    estimateHiddenCharacters (-25) 50 5 = some (-2) ∧
    roundHalfAwayFromZero ((-25 : ℚ) / ((50 : ℚ) / 5)) = -3 ∧
    (-2 : ℤ) ≠ -3 := by
  refine ⟨?_, ?_, by decide⟩
  · norm_num [estimateHiddenCharacters, jsRound]
  · norm_num [roundHalfAwayFromZero]

/-- Claim C8 (amended): for every redactionWidth (negative values
included), nonzero referenceWidth and nonzero referenceTextLength, the
returned estimate is the quotient q = redactionWidth / avgCharWidth
rounded to the nearest integer with halves toward +∞ (JS Math.round):
the unique integer n with q - 1/2 < n ≤ q + 1/2.  No clamping: a
nonpositive quotient propagates as a nonpositive estimate. -/
theorem estimate_rounds_half_up (redactionW referenceW referenceTextLength : ℚ)
    (hlen : referenceTextLength ≠ 0) (href : referenceW ≠ 0) :
    ∃ n : ℤ,
      estimateHiddenCharacters redactionW referenceW referenceTextLength = some n ∧
      redactionW / (referenceW / referenceTextLength) - 1 / 2 < (n : ℚ) ∧
      (n : ℚ) ≤ redactionW / (referenceW / referenceTextLength) + 1 / 2 ∧
      (∀ m : ℤ, redactionW / (referenceW / referenceTextLength) - 1 / 2 < (m : ℚ) →
        (m : ℚ) ≤ redactionW / (referenceW / referenceTextLength) + 1 / 2 → m = n) ∧
      (redactionW / (referenceW / referenceTextLength) ≤ 0 → n ≤ 0) := by
  have havg : referenceW / referenceTextLength ≠ 0 := div_ne_zero href hlen
  refine ⟨jsRound (redactionW / (referenceW / referenceTextLength)),
    ?_, ?_, ?_, ?_, ?_⟩
  · unfold estimateHiddenCharacters
    rw [if_neg hlen]
    dsimp only
    rw [if_neg havg]
  · have h1 := Int.lt_floor_add_one
      (redactionW / (referenceW / referenceTextLength) + 1 / 2)
    unfold jsRound
    push_cast at h1 ⊢
    linarith
  · have h1 := Int.floor_le
      (redactionW / (referenceW / referenceTextLength) + 1 / 2)
    unfold jsRound
    linarith
  · intro m h1 h2
    have hm1 : m ≤ jsRound (redactionW / (referenceW / referenceTextLength)) :=
      Int.le_floor.mpr h2
    have hm2 : jsRound (redactionW / (referenceW / referenceTextLength)) ≤ m := by
      have hf := Int.floor_le
        (redactionW / (referenceW / referenceTextLength) + 1 / 2)
      have hlt : ((jsRound (redactionW / (referenceW / referenceTextLength)) : ℤ) : ℚ)
          < (m : ℚ) + 1 := by
        unfold jsRound
        linarith
      have : jsRound (redactionW / (referenceW / referenceTextLength)) < m + 1 := by
        exact_mod_cast hlt
      omega
    omega
  · intro hq
    have hf := Int.floor_le
      (redactionW / (referenceW / referenceTextLength) + 1 / 2)
    have hhalf : ((jsRound (redactionW / (referenceW / referenceTextLength)) : ℤ) : ℚ)
        ≤ 1 / 2 := by
      unfold jsRound
      linarith
    have : jsRound (redactionW / (referenceW / referenceTextLength)) < 1 := by
      exact_mod_cast lt_of_le_of_lt hhalf (by norm_num : (1 : ℚ) / 2 < 1)
    omega

/-- Witness for the amended claim C8 at (-25, 50, 5): the estimate -2 is
the unique integer in (q - 1/2, q + 1/2] for q = -2.5. -/
theorem estimate_rounds_half_up_witness :
    ∃ n : ℤ,
      estimateHiddenCharacters (-25) 50 5 = some n ∧
      (-25 : ℚ) / ((50 : ℚ) / (5 : ℚ)) - 1 / 2 < (n : ℚ) ∧
      (n : ℚ) ≤ (-25 : ℚ) / ((50 : ℚ) / (5 : ℚ)) + 1 / 2 ∧
      (∀ m : ℤ, (-25 : ℚ) / ((50 : ℚ) / (5 : ℚ)) - 1 / 2 < (m : ℚ) →
        (m : ℚ) ≤ (-25 : ℚ) / ((50 : ℚ) / (5 : ℚ)) + 1 / 2 → m = n) ∧
      ((-25 : ℚ) / ((50 : ℚ) / (5 : ℚ)) ≤ 0 → n ≤ 0) :=
  estimate_rounds_half_up (-25) 50 5 (by norm_num) (by norm_num)

/-- Claim C10: only referenceTextLength = 0 is guarded.  With a positive
reference text length and referenceWidth = 0, the computed avgCharWidth
is 0 and the division redactionW / avgCharWidth is unguarded: for
nonzero redactionW the result is non-finite in JS (Infinity), modelled
as `none` — not a finite integer character count. -/
theorem estimate_zero_reference_width (redactionW referenceTextLength : ℚ)
    (hrw : redactionW ≠ 0) (hlen : 0 < referenceTextLength) :
    (0 : ℚ) / referenceTextLength = 0 ∧
    estimateHiddenCharacters redactionW 0 referenceTextLength = none := by
  refine ⟨zero_div _, ?_⟩
  unfold estimateHiddenCharacters
  rw [if_neg hlen.ne']
  dsimp only
  rw [if_pos (zero_div referenceTextLength)]

/-- Witness for claim C10 at redactionW = 1, referenceTextLength = 5:
the result is none. -/
theorem estimate_zero_reference_width_witness :
    (0 : ℚ) / (5 : ℚ) = 0 ∧ estimateHiddenCharacters 1 0 5 = none :=
  estimate_zero_reference_width 1 5 (by norm_num) (by norm_num)

/-! ### The artifact classifier: loop count versus the spec-side count -/

theorem suspicious_iff (c : Canvas) (x y : ℕ) :
    suspicious c x y = true ↔
      30 < lumOf (getPixel c x y) ∧ lumOf (getPixel c x y) < 250 := by
  unfold suspicious
  simp only [decide_eq_true_eq]
  have h30 : (30 : ℚ) = ((30000 : ℕ) : ℚ) / 1000 := by norm_num
  have h250 : (250 : ℚ) = ((250000 : ℕ) : ℚ) / 1000 := by norm_num
  rw [h30, h250, lt_lumScaled_iff, lumScaled_lt_iff]

theorem countP_range_eq (n : ℕ) (q : ℕ → Bool) :
    (List.range n).countP q = ((Finset.range n).filter (fun a => q a = true)).card := by
  induction n with
  | zero => simp
  | succ m ih =>
    rw [List.range_succ, List.countP_append, Finset.range_succ, Finset.filter_insert]
    by_cases hq : q m = true
    · rw [if_pos hq, Finset.card_insert_of_not_mem (by simp)]
      simp [hq, ih]
    · rw [if_neg hq]
      simp [hq, ih]

theorem countInterior_le (c : Canvas) (r : Rect) :
    countInterior c r ≤ r.w * r.h := by
  unfold countInterior
  calc ((Finset.range r.w ×ˢ Finset.range r.h).filter _).card
      ≤ (Finset.range r.w ×ˢ Finset.range r.h).card := Finset.card_filter_le _ _
    _ = r.w * r.h := by rw [Finset.card_product, Finset.card_range, Finset.card_range]

/-- The row-major loop count of the code equals the per-pixel count of
the spec: region index p corresponds to the pixel (p % w, p / w). -/
theorem nonBlackPixels_eq_countInterior (c : Canvas) (r : Rect) :
    nonBlackPixels c r = countInterior c r := by
  rcases Nat.eq_zero_or_pos r.w with hw | hw
  · unfold nonBlackPixels countInterior
    rw [hw]
    simp
  · unfold nonBlackPixels countInterior
    rw [countP_range_eq]
    apply Finset.card_bij (fun p _ => ((p % r.w : ℕ), (p / r.w : ℕ)))
    · intro a ha
      rw [Finset.mem_filter, Finset.mem_range] at ha
      obtain ⟨han, hap⟩ := ha
      rw [Finset.mem_filter, Finset.mem_product, Finset.mem_range, Finset.mem_range]
      refine ⟨⟨Nat.mod_lt _ hw, ?_⟩, ?_⟩
      · rw [Nat.div_lt_iff_lt_mul hw]
        calc a < r.w * r.h := han
          _ = r.h * r.w := Nat.mul_comm _ _
      · exact (suspicious_iff _ _ _).mp hap
    · intro a₁ ha₁ a₂ ha₂ heq
      have e1 : a₁ % r.w = a₂ % r.w := congrArg Prod.fst heq
      have e2 : a₁ / r.w = a₂ / r.w := congrArg Prod.snd heq
      calc a₁ = r.w * (a₁ / r.w) + a₁ % r.w := (Nat.div_add_mod _ _).symm
        _ = r.w * (a₂ / r.w) + a₂ % r.w := by rw [e1, e2]
        _ = a₂ := Nat.div_add_mod _ _
    · intro b hb
      rw [Finset.mem_filter, Finset.mem_product, Finset.mem_range, Finset.mem_range] at hb
      obtain ⟨⟨hb1, hb2⟩, hbp⟩ := hb
      have hmod : (b.1 + r.w * b.2) % r.w = b.1 := by
        rw [Nat.add_mul_mod_self_left, Nat.mod_eq_of_lt hb1]
      have hdiv : (b.1 + r.w * b.2) / r.w = b.2 := by
        rw [Nat.add_mul_div_left _ _ hw, Nat.div_eq_of_lt hb1, Nat.zero_add]
      refine ⟨b.1 + r.w * b.2, ?_, ?_⟩
      · rw [Finset.mem_filter, Finset.mem_range]
        constructor
        · calc b.1 + r.w * b.2 < r.w + r.w * b.2 := by omega
            _ = r.w * (b.2 + 1) := by ring
            _ ≤ r.w * r.h := Nat.mul_le_mul_left _ (by omega)
        · rw [hmod, hdiv]
          exact (suspicious_iff _ _ _).mpr hbp
      · rw [hmod, hdiv]

/-- Claim C5: analyzeLazyRedaction returns true iff the number of pixels
inside the rect whose luminance 0.299R + 0.587G + 0.114B lies strictly
between 30 and 250 strictly exceeds 5 percent of rect.w * rect.h.  The
equivalence holds for every rect: a zero-area rect makes the unguarded
region read throw (so true is not returned) and also zeroes the
threshold side, while a positive-area rect reaches the loop, whose
count equals the spec-side per-pixel count. -/
theorem analyzeLazyRedaction_iff_density (c : Canvas) (r : Rect) :
    analyzeLazyRedaction c r = Except.ok true ↔
      (countInterior c r : ℚ) > 5 / 100 * ((r.w : ℚ) * (r.h : ℚ)) := by
  unfold analyzeLazyRedaction
  by_cases h0 : r.w = 0 ∨ r.h = 0
  · rw [if_pos h0]
    have hc0 : countInterior c r = 0 := by
      have hle := countInterior_le c r
      rcases h0 with h | h
      · rw [h, Nat.zero_mul] at hle
        omega
      · rw [h, Nat.mul_zero] at hle
        omega
    have hwh : (r.w : ℚ) * (r.h : ℚ) = 0 := by
      rcases h0 with h | h <;> rw [h] <;> simp
    rw [hc0, hwh]
    simp
  · rw [if_neg h0]
    push_neg at h0
    have hpos : 0 < r.w * r.h :=
      Nat.mul_pos (Nat.pos_of_ne_zero h0.1) (Nat.pos_of_ne_zero h0.2)
    simp only [Except.ok.injEq, decide_eq_true_eq]
    rw [nonBlackPixels_eq_countInterior]
    have hq : (0 : ℚ) < ((r.w * r.h : ℕ) : ℚ) := by exact_mod_cast hpos
    rw [gt_iff_lt, gt_iff_lt, lt_div_iff₀ hq]
    have hcast : (0.05 : ℚ) * ((r.w * r.h : ℕ) : ℚ) = 5 / 100 * ((r.w : ℚ) * r.h) := by
      push_cast
      ring_nf
    rw [hcast]

/-- Claim C6 (code bug): a zero-area rect does not yield false — the
unguarded `ctx.getImageData(rect.x, rect.y, rect.w, rect.h)` call
throws an IndexSizeError DOMException whenever `rect.w` or `rect.h` is
0 (every zero-area rect), so the function raises instead of returning
the safe default that the claim and the spec (section 7,
DegenerateInput) require. -/
theorem analyzeLazyRedaction_zero_area_throws (c : Canvas) (r : Rect)
    (h : r.w * r.h = 0) :
    analyzeLazyRedaction c r = Except.error "IndexSizeError" := by
  unfold analyzeLazyRedaction
  rw [if_pos (Nat.mul_eq_zero.mp h)]

/-- Witness for claim C6: a rect of width 0 (zero area) on the 4×4
canvas raises IndexSizeError. -/
theorem analyzeLazyRedaction_zero_area_throws_witness :
    analyzeLazyRedaction c4x4 ⟨1, 2, 0, 7⟩ = Except.error "IndexSizeError" :=
  analyzeLazyRedaction_zero_area_throws c4x4 ⟨1, 2, 0, 7⟩ (by decide)

/-- Claim C2 counterexample: on the all-white 4×4 canvas the output does
have width W and height H + 150, but its top H rows are not
byte-identical to the input: the divider stroke (lineWidth 4, centered
on y = H) overwrites rows H-2 and H-1 — byte 32 (pixel (0,2), red
channel) reads 0 (divider green #00ff41) instead of the original 255. -/
theorem generateEvidenceImage_top_rows_not_identical :
    (generateEvidenceImage c4x4 rect0 prof0).height = c4x4.height + 150 ∧
    (generateEvidenceImage c4x4 rect0 prof0).width = c4x4.width ∧
    (generateEvidenceImage c4x4 rect0 prof0).data 32 = 0 ∧
    c4x4.data 32 = 255 ∧
    ¬(∀ i, i < 4 * c4x4.width * c4x4.height →
        (generateEvidenceImage c4x4 rect0 prof0).data i = c4x4.data i) := by
  refine ⟨rfl, rfl, by decide, by decide, ?_⟩
  intro hall
  have h := hall 32 (by decide)
  revert h
  decide

/-- Claim C2 (amended): the buffer returned by generateEvidenceImage has
width W and height exactly H + 150, and its top H rows are byte-for-byte
identical to the input only where no later drawing lands: rows
0 .. H-3 are copied unchanged, while rows H-2 and H-1 are overwritten by
the 4px divider stroke centered on y = H (and the overlaid profile name,
whose platform-rendered glyphs are outside the model, may additionally
cover top-row pixels near the centre of redactionRect). -/
theorem generateEvidenceImage_dims_copy_divider (c : Canvas) (r : Rect) (m : Profile) :
    (generateEvidenceImage c r m).width = c.width ∧
    (generateEvidenceImage c r m).height = c.height + 150 ∧
    (∀ i, i < 4 * c.width * c.height → i / 4 / c.width + 2 < c.height →
      (generateEvidenceImage c r m).data i = c.data i) ∧
    (∀ i, i < 4 * c.width * (c.height + 150) →
      c.height ≤ i / 4 / c.width + 2 → i / 4 / c.width < c.height + 2 →
      (generateEvidenceImage c r m).data i = greenByte (i % 4)) := by
  refine ⟨rfl, rfl, ?_, ?_⟩
  · intro i hi hrow
    unfold generateEvidenceImage
    dsimp only
    have hle : 4 * c.width * c.height ≤ 4 * c.width * (c.height + 150) :=
      Nat.mul_le_mul_left _ (by omega)
    rw [if_pos (lt_of_lt_of_le hi hle), if_neg (by omega :
      ¬(c.height ≤ i / 4 / c.width + 2 ∧ i / 4 / c.width < c.height + 2)),
      if_neg (by omega : ¬c.height ≤ i / 4 / c.width)]
  · intro i hi h1 h2
    unfold generateEvidenceImage
    dsimp only
    rw [if_pos hi, if_pos ⟨h1, h2⟩]

/-- Witness for the amended claim C2 on the 4×4 fixture: byte 0 (row 0)
is copied unchanged, and byte 32 (row H-2 = 2) is the divider green. -/
theorem generateEvidenceImage_dims_copy_divider_witness :
    (generateEvidenceImage c4x4 rect0 prof0).data 0 = c4x4.data 0 ∧
    (generateEvidenceImage c4x4 rect0 prof0).data 32 = greenByte 0 :=
  ⟨(generateEvidenceImage_dims_copy_divider c4x4 rect0 prof0).2.2.1 0
      (by decide) (by decide),
   (generateEvidenceImage_dims_copy_divider c4x4 rect0 prof0).2.2.2 32
      (by decide) (by decide) (by decide)⟩

/-! ### Determinism: the functions read only the visible buffer bytes -/

theorem pixelBytes_index_bound (c : Canvas) (x y : ℕ)
    (hx : x < c.width) (hy : y < c.height) :
    (y * c.width + x) * 4 + 2 < 4 * c.width * c.height := by
  have h1 : y * c.width + x < c.width * c.height := by
    calc y * c.width + x < y * c.width + c.width := by omega
      _ = (y + 1) * c.width := by ring
      _ ≤ c.height * c.width := Nat.mul_le_mul_right _ (by omega)
      _ = c.width * c.height := Nat.mul_comm _ _
  have h2 : 4 * c.width * c.height = 4 * (c.width * c.height) := by ring
  omega

theorem isDark_congr (c₁ c₂ : Canvas) (h : sameBuffer c₁ c₂) (x y : ℕ) :
    isDark c₁ x y = isDark c₂ x y := by
  obtain ⟨hw, hh, hd⟩ := h
  unfold isDark
  by_cases hin : x < c₁.width ∧ y < c₁.height
  · rw [if_pos hin, if_pos (by rw [← hw, ← hh]; exact hin)]
    have hb := pixelBytes_index_bound c₁ x y hin.1 hin.2
    unfold pixelBytes
    rw [← hw, hd _ (by omega), hd _ (by omega), hd _ (by omega)]
  · rw [if_neg hin, if_neg (by rw [← hw, ← hh]; exact hin)]

theorem getPixel_congr (c₁ c₂ : Canvas) (h : sameBuffer c₁ c₂) (x y : ℕ) :
    getPixel c₁ x y = getPixel c₂ x y := by
  obtain ⟨hw, hh, hd⟩ := h
  unfold getPixel
  by_cases hin : x < c₁.width ∧ y < c₁.height
  · rw [if_pos hin, if_pos (by rw [← hw, ← hh]; exact hin)]
    have hb := pixelBytes_index_bound c₁ x y hin.1 hin.2
    unfold pixelBytes
    rw [← hw, hd _ (by omega), hd _ (by omega), hd _ (by omega)]
  · rw [if_neg hin, if_neg (by rw [← hw, ← hh]; exact hin)]

theorem suspicious_congr (c₁ c₂ : Canvas) (h : sameBuffer c₁ c₂) (x y : ℕ) :
    suspicious c₁ x y = suspicious c₂ x y := by
  unfold suspicious
  rw [getPixel_congr c₁ c₂ h x y]

theorem scanLeft_congr (d₁ d₂ : ℕ → Bool) (h : ∀ t, d₁ t = d₂ t) :
    ∀ x, scanLeft d₁ x = scanLeft d₂ x := by
  intro x
  induction x with
  | zero => rfl
  | succ n ih => simp only [scanLeft, h n, ih]

theorem scanRightAux_congr (d₁ d₂ : ℕ → Bool) (h : ∀ t, d₁ t = d₂ t) :
    ∀ fuel x, scanRightAux d₁ fuel x = scanRightAux d₂ fuel x := by
  intro fuel
  induction fuel with
  | zero => intro x; rfl
  | succ f ih => intro x; simp only [scanRightAux, h (x + 1), ih (x + 1)]

theorem detectScan_congr (c₁ c₂ : Canvas) (h : sameBuffer c₁ c₂) (sx sy : ℕ) :
    detectScan c₁ sx sy = detectScan c₂ sx sy := by
  have hD : ∀ x y, isDark c₁ x y = isDark c₂ x y := isDark_congr c₁ c₂ h
  simp only [detectScan, hD, h.1, h.2.1]

theorem detect_congr (c₁ c₂ : Canvas) (h : sameBuffer c₁ c₂) (sx sy : ℤ) :
    detectRedactionAtPoint c₁ sx sy = detectRedactionAtPoint c₂ sx sy := by
  have hD : ∀ x y, isDark c₁ x y = isDark c₂ x y := isDark_congr c₁ c₂ h
  have hS : ∀ a b, detectScan c₁ a b = detectScan c₂ a b := detectScan_congr c₁ c₂ h
  unfold detectRedactionAtPoint
  rw [h.1, h.2.1]
  simp only [hD, hS]

theorem analyze_congr (c₁ c₂ : Canvas) (h : sameBuffer c₁ c₂) (r : Rect) :
    analyzeLazyRedaction c₁ r = analyzeLazyRedaction c₂ r := by
  have hs : ∀ x y, suspicious c₁ x y = suspicious c₂ x y := suspicious_congr c₁ c₂ h
  unfold analyzeLazyRedaction nonBlackPixels
  simp only [hs]

theorem generateEvidenceImage_congr (c₁ c₂ : Canvas) (h : sameBuffer c₁ c₂)
    (r : Rect) (m : Profile) :
    generateEvidenceImage c₁ r m = generateEvidenceImage c₂ r m := by
  obtain ⟨hw, hh, hd⟩ := h
  unfold generateEvidenceImage
  rw [hw, hh]
  refine congrArg (Canvas.mk c₂.width (c₂.height + 150)) (funext fun i => ?_)
  by_cases hmain : i < 4 * c₂.width * (c₂.height + 150)
  · rw [if_pos hmain, if_pos hmain]
    dsimp only
    by_cases h1 : c₂.height ≤ i / 4 / c₂.width + 2 ∧ i / 4 / c₂.width < c₂.height + 2
    · rw [if_pos h1, if_pos h1]
    · rw [if_neg h1, if_neg h1]
      by_cases h2 : c₂.height ≤ i / 4 / c₂.width
      · rw [if_pos h2, if_pos h2]
      · rw [if_neg h2, if_neg h2]
        apply hd
        rw [hw, hh]
        have hW : 0 < c₂.width := by
          rcases Nat.eq_zero_or_pos c₂.width with h0 | hp
          · rw [h0] at hmain
            simp at hmain
          · exact hp
        have hy : i / 4 / c₂.width < c₂.height := by omega
        have hi4 : i / 4 < c₂.height * c₂.width := (Nat.div_lt_iff_lt_mul hW).mp hy
        have hi' : i < c₂.height * c₂.width * 4 :=
          (Nat.div_lt_iff_lt_mul (by norm_num)).mp hi4
        calc i < c₂.height * c₂.width * 4 := hi'
          _ = 4 * c₂.width * c₂.height := by ring
  · rw [if_neg hmain, if_neg hmain]

/-- Claim C9: all four core functions are deterministic: they are pure
functions of their declared inputs (no hidden state, clock, randomness
or call-order dependence — two calls with identical inputs are the same
value by reflexivity), and the three buffer-reading functions depend
only on the buffer dimensions and the visible bytes of the pixel array:
canvases agreeing on those produce identical outputs. -/
theorem core_functions_deterministic (c₁ c₂ : Canvas) (h : sameBuffer c₁ c₂) :
    (∀ sx sy : ℤ, detectRedactionAtPoint c₁ sx sy = detectRedactionAtPoint c₂ sx sy) ∧
    (∀ r : Rect, analyzeLazyRedaction c₁ r = analyzeLazyRedaction c₂ r) ∧
    (∀ redactionW referenceW referenceTextLength : ℚ,
      estimateHiddenCharacters redactionW referenceW referenceTextLength =
        estimateHiddenCharacters redactionW referenceW referenceTextLength) ∧
    (∀ (r : Rect) (m : Profile),
      generateEvidenceImage c₁ r m = generateEvidenceImage c₂ r m) :=
  ⟨detect_congr c₁ c₂ h, analyze_congr c₁ c₂ h, fun _ _ _ => rfl,
   generateEvidenceImage_congr c₁ c₂ h⟩

/-- Witness for claim C9: the 4×4 white canvas and its copy with junk
bytes past the visible array produce the same detection result. -/
theorem core_functions_deterministic_witness :
    detectRedactionAtPoint c4x4 0 0 = detectRedactionAtPoint c4x4junk 0 0 :=
  (core_functions_deterministic c4x4 c4x4junk ⟨rfl, rfl, by decide⟩).1 0 0
